import Mathlib

/-!
Verification development for the Raft consensus subsystem of the apf_sim
repository (src/node.py, src/message.py, src/network_comm.py).

The Python code is shallowly embedded: every function below is a direct
translation of the corresponding Python function, with Python integers as
`Int`, Python lists as `List`, Python dicts as association lists, and the
wall clock passed explicitly as a `now : Int` parameter (timestamps are
opaque pass-through values in all of the verified code paths).  Python
list indexing and slicing — including negative-index wrap-around and the
`IndexError` raised on an out-of-range index — are modelled explicitly by
`pyGet?` and `pySliceTo`; an exception escaping a handler is modelled with
`Except`, the error payload carrying the state mutated so far (Python
mutations performed before a raise persist, and the outer try/except in
the handlers swallows the exception and returns no reply).
-/

/-- Python `l[i]`: nonnegative indices are looked up directly, negative
indices wrap around from the end; `none` models the `IndexError` raised
when the index is out of range in both directions. -/
def pyGet? {α : Type} (l : List α) (i : Int) : Option α :=
  if 0 ≤ i then l.get? i.toNat
  else if 0 ≤ i + l.length then l.get? (i + l.length).toNat else none

/-- Python slice `l[:i]`: for nonnegative `i` it takes the first `i`
elements (clamped at the length); a negative `i` counts from the end,
clamped at 0. -/
def pySliceTo {α : Type} (l : List α) (i : Int) : List α :=
  if 0 ≤ i then l.take i.toNat else l.take ((l.length : Int) + i).toNat

/-- Python `d.get(k, default)` on a string-keyed dict modelled as an
association list. -/
def lookupD {β : Type} (m : List (String × β)) (k : String) (d : β) : β :=
  match m.find? (fun p => p.1 == k) with
  | some p => p.2
  | none => d

/-- Python `d[k] = v` on a string-keyed dict: replace the binding if the
key is present, otherwise append it. -/
def setKV {β : Type} : List (String × β) → String → β → List (String × β)
  | [], k, v => [(k, v)]
  | (k0, v0) :: rest, k, v =>
    if k0 = k then (k, v) :: rest else (k0, v0) :: setKV rest k v

/-- Python `s.split(" ", 1)` restricted to the two-part case: splits at
the first space, returning `none` when the string contains no space
(in which case the Python result has length 1 and the caller ignores it). -/
def splitFirstSpace (s : String) : Option (String × String) :=
  match s.splitOn " " with
  | [] => none
  | [_] => none
  | p :: rest => some (p, String.intercalate " " rest)

/-! ## Data model (src/message.py dataclasses, src/node.py state) -/

/-- Role of a node, `NodeState` in src/message.py. -/
inductive NodeState where
  | follower
  | candidate
  | leader
deriving DecidableEq, Repr

/-- A log entry `(term, index, command, timestamp)`, `LogEntry` in
src/message.py.  Timestamps are informational pass-through values,
modelled as `Int`. -/
structure LogEntry where
  term : Int
  index : Int
  command : String
  timestamp : Int
deriving DecidableEq, Repr

/-- A log entry as it arrives inside an AppendEntries request: the
handler reads the dict fields `term`, `index`, `command` and
`entry_data.get('timestamp', time.time())`, so the timestamp may be
absent and defaults to the current time. -/
structure ReqEntry where
  term : Int
  index : Int
  command : String
  timestamp : Option Int
deriving DecidableEq, Repr

/-- VoteRequest payload (src/message.py). -/
structure VoteRequest where
  term : Int
  candidateId : String
  lastLogIndex : Int
  lastLogTerm : Int
deriving DecidableEq, Repr

/-- VoteResponse payload (src/message.py). -/
structure VoteResponse where
  term : Int
  voteGranted : Bool
deriving DecidableEq, Repr

/-- AppendEntriesRequest payload (src/message.py), with the serialized
entry dicts given their typed shape. -/
structure AEReq where
  term : Int
  leaderId : String
  prevLogIndex : Int
  prevLogTerm : Int
  entries : List ReqEntry
  leaderCommit : Int
deriving DecidableEq, Repr

/-- AppendEntriesResponse payload (src/message.py). -/
structure AEResp where
  term : Int
  success : Bool
  matchIndex : Int
deriving DecidableEq, Repr

/-- The protocol state of a RaftNode (src/node.py `__init__`): the
persistent and volatile fields read or written by the handlers under
verification.  The leader's `next_index` map and the timing fields other
than `last_heartbeat_time` play no role in those handlers and are not
modelled. -/
structure RaftState where
  currentTerm : Int
  votedFor : Option String
  log : List LogEntry
  commitIndex : Int
  lastApplied : Int
  role : NodeState
  stateMachine : List (String × String)
  matchIndex : List (String × Int)
  lastHeartbeatTime : Int
deriving DecidableEq, Repr

/-- The initial state set up in `RaftNode.__init__`. -/
def initialState : RaftState :=
  { currentTerm := 0
    votedFor := none
    log := []
    commitIndex := -1
    lastApplied := -1
    role := NodeState.follower
    stateMachine := []
    matchIndex := []
    lastHeartbeatTime := 0 }

/-! ## State machine application (src/node.py `_apply_entry`, `_apply_entries`) -/

/-- Application of one committed entry to the key-value state machine,
`_apply_entry`.  `SET key value` stores a binding; `GET` and every other
command leave the mutable state unchanged (the commit callback is not
modelled). -/
def applyEntry (sm : List (String × String)) (e : LogEntry) : List (String × String) :=
  if e.command.startsWith "SET " then
    match splitFirstSpace (e.command.drop 4) with
    | some (k, v) => setKV sm k v
    | none => sm
  else sm

/-- One run of the `while self.last_applied < self.commit_index` loop of
`_apply_entries`, with explicit fuel.  Returns the new `last_applied`,
the new state machine, and the trace of entries passed to
`_apply_entry`, in order.  An `Except.error` models the `IndexError`
raised by `self.log[self.last_applied]` when the incremented
`last_applied` wraps below the start of the log (impossible whenever
`last_applied ≥ -1`, which holds in every reachable state). -/
def applyEntriesAux (log : List LogEntry) (commit : Int) :
    Int → List (String × String) → Nat →
    Except (Int × List (String × String) × List LogEntry)
           (Int × List (String × String) × List LogEntry)
  | la, sm, 0 => .ok (la, sm, [])
  | la, sm, fuel + 1 =>
    if la < commit then
      let la1 := la + 1
      if la1 < (log.length : Int) then
        match pyGet? log la1 with
        | none => .error (la1, sm, [])
        | some e =>
          match applyEntriesAux log commit la1 (applyEntry sm e) fuel with
          | .ok (laf, smf, tr) => .ok (laf, smf, e :: tr)
          | .error (laf, smf, tr) => .error (laf, smf, e :: tr)
      else
        match applyEntriesAux log commit la1 sm fuel with
        | .ok r => .ok r
        | .error r => .error r
    else .ok (la, sm, [])

/-- The `_apply_entries` loop.  The fuel `(commit - la).toNat` is exactly
the number of iterations the Python while-loop performs. -/
def applyEntriesFn (log : List LogEntry) (commit : Int)
    (sm : List (String × String)) (la : Int) :
    Except (Int × List (String × String) × List LogEntry)
           (Int × List (String × String) × List LogEntry) :=
  applyEntriesAux log commit la sm (commit - la).toNat

/-! ## AppendEntries receiver (src/node.py `_handle_append_entries`) -/

/-- Term adoption and election-timer reset at the top of
`_handle_append_entries` (steps before the consistency check). -/
def aeStep1 (s : RaftState) (now : Int) (req : AEReq) : RaftState :=
  let s1 :=
    if req.term > s.currentTerm then
      { s with currentTerm := req.term, role := NodeState.follower, votedFor := none }
    else s
  if req.term ≥ s1.currentTerm then { s1 with lastHeartbeatTime := now } else s1

/-- The consistency check of `_handle_append_entries`: accept iff
`prev_log_index < 0` or (`prev_log_index < len(log)` and the entry at
`prev_log_index` has term `prev_log_term`).  The second disjunct is only
evaluated on a nonnegative in-range index, where `pyGet?` is ordinary
lookup. -/
def aeAccept (log : List LogEntry) (req : AEReq) : Bool :=
  decide (req.prevLogIndex < 0) ||
    (decide (req.prevLogIndex < (log.length : Int)) &&
      (match pyGet? log req.prevLogIndex with
       | some e => e.term == req.prevLogTerm
       | none => false))

/-- The entry-append loop of `_handle_append_entries`, one call per
request entry, threading the absolute `log_index`.  At an existing index
with a conflicting term the log is truncated (`self.log[:log_index]`)
and the new entry appended; at an existing index with the same term
nothing happens; past the end the entry is appended.  `Except.error`
models the `IndexError` raised by `self.log[log_index]` when `log_index`
wraps below the start of the log; the error payload is the log as
mutated so far. -/
def appendLoopAux (now : Int) :
    List LogEntry → Int → List ReqEntry → Except (List LogEntry) (List LogEntry)
  | log, _, [] => .ok log
  | log, logIndex, e :: rest =>
    let newEntry : LogEntry := ⟨e.term, e.index, e.command, e.timestamp.getD now⟩
    if logIndex < (log.length : Int) then
      match pyGet? log logIndex with
      | none => .error log
      | some cur =>
        if cur.term ≠ e.term then
          appendLoopAux now (pySliceTo log logIndex ++ [newEntry]) (logIndex + 1) rest
        else appendLoopAux now log (logIndex + 1) rest
    else appendLoopAux now (log ++ [newEntry]) (logIndex + 1) rest

/-- The append phase of `_handle_append_entries`, started at
`start_index = prev_log_index + 1`. -/
def appendLoopFn (log : List LogEntry) (start : Int) (entries : List ReqEntry)
    (now : Int) : Except (List LogEntry) (List LogEntry) :=
  appendLoopAux now log start entries

/-- Result of the AppendEntries handler: the node state afterwards and
the reply, `none` when an exception escaped the handler body and was
swallowed by its outer try/except (no reply is sent in that case). -/
structure AEOut where
  st : RaftState
  reply : Option AEResp
deriving DecidableEq, Repr

/-- The `_handle_append_entries` handler.  Mirrors the Python control
flow: term adoption, timer reset, consistency check, append loop,
`match_index = start_index + len(entries) - 1`, the commit-index update
`commit_index = min(leader_commit, len(log) - 1)` guarded by
`leader_commit > commit_index`, and the apply loop. -/
def handleAppendEntries (s0 : RaftState) (now : Int) (req : AEReq) : AEOut :=
  let s := aeStep1 s0 now req
  if aeAccept s.log req then
    match appendLoopFn s.log (req.prevLogIndex + 1) req.entries now with
    | .error lg => ⟨{ s with log := lg }, none⟩
    | .ok newLog =>
      let mi : Int := (req.prevLogIndex + 1) + (req.entries.length : Int) - 1
      let s1 := { s with log := newLog }
      if req.leaderCommit > s1.commitIndex then
        let s2 := { s1 with
          commitIndex := min req.leaderCommit ((newLog.length : Int) - 1) }
        match applyEntriesFn s2.log s2.commitIndex s2.stateMachine s2.lastApplied with
        | .error (laf, smf, _) =>
          ⟨{ s2 with lastApplied := laf, stateMachine := smf }, none⟩
        | .ok (laf, smf, _) =>
          ⟨{ s2 with lastApplied := laf, stateMachine := smf },
            some ⟨s2.currentTerm, true, mi⟩⟩
      else ⟨s1, some ⟨s1.currentTerm, true, mi⟩⟩
  else ⟨s, some ⟨s.currentTerm, false, -1⟩⟩

/-! ## Vote-request receiver (src/node.py `_handle_vote_request`) -/

/-- Term of the last log entry, `self.log[last_log_index].term if
last_log_index >= 0 else 0`. -/
def lastLogTermOf (log : List LogEntry) : Int :=
  match log.getLast? with
  | some e => e.term
  | none => 0

/-- Index of the last log entry, `len(self.log) - 1`. -/
def lastLogIndexOf (log : List LogEntry) : Int :=
  (log.length : Int) - 1

/-- Term adoption at the top of `_handle_vote_request`. -/
def voteStep1 (s : RaftState) (req : VoteRequest) : RaftState :=
  if req.term > s.currentTerm then
    { s with currentTerm := req.term, votedFor := none, role := NodeState.follower }
  else s

/-- The up-to-date check of `_handle_vote_request`: the candidate's log
is at least as up-to-date iff its last term is greater, or equal with a
greater-or-equal last index. -/
def upToDate (log : List LogEntry) (req : VoteRequest) : Bool :=
  decide (req.lastLogTerm > lastLogTermOf log) ||
    (decide (req.lastLogTerm = lastLogTermOf log) &&
      decide (req.lastLogIndex ≥ lastLogIndexOf log))

/-- The `_handle_vote_request` handler: adopt a higher term, compute
eligibility (`term ≥ currentTerm` and `votedFor` free or already this
candidate), check up-to-dateness, and on grant record the vote and reset
the election timer.  The reply carries the current term. -/
def handleVoteRequest (s : RaftState) (now : Int) (req : VoteRequest) :
    RaftState × VoteResponse :=
  let s1 := voteStep1 s req
  if req.term ≥ s1.currentTerm ∧
      (s1.votedFor = none ∨ s1.votedFor = some req.candidateId) then
    if upToDate s1.log req then
      ({ s1 with votedFor := some req.candidateId, lastHeartbeatTime := now },
        ⟨s1.currentTerm, true⟩)
    else (s1, ⟨s1.currentTerm, false⟩)
  else (s1, ⟨s1.currentTerm, false⟩)

/-! ## Leader commit-index recomputation (src/node.py `_update_commit_index`) -/

/-- Python `sorted(l, reverse=True)`: sort into descending order. -/
def sortDesc (l : List Int) : List Int :=
  List.insertionSort (· ≥ ·) l

/-- The matchIndex values collected for all peers,
`[self.match_index.get(node_id, -1) for n in self.all_nodes]`. -/
def matchValues (allNodes : List String) (s : RaftState) : List Int :=
  allNodes.map (fun n => lookupD s.matchIndex n (-1))

/-- The `_update_commit_index` step.  On a non-leader it does nothing.
Otherwise it sorts the collected matchIndex values descending, picks the
element at position `len // 2`, and advances `commit_index` to it only
when it exceeds the current commit index, lies inside the log, and the
entry there carries the current term.  The two `none` fallbacks model an
`IndexError` (empty cluster, or a wrap below the log start needing
`commit_index < -1`); the exception is swallowed by the Raft loop with
the state unchanged, which the fallback reproduces. -/
def updateCommitIndex (allNodes : List String) (s : RaftState) : RaftState :=
  if s.role = NodeState.leader then
    let mis := matchValues allNodes s
    match (sortDesc mis).get? (mis.length / 2) with
    | none => s
    | some majorityIndex =>
      if majorityIndex > s.commitIndex ∧ majorityIndex < (s.log.length : Int) then
        match pyGet? s.log majorityIndex with
        | some e =>
          if e.term = s.currentTerm then { s with commitIndex := majorityIndex } else s
        | none => s
      else s
  else s

/-! ## Command API (src/node.py `append_entry`) -/

/-- The `append_entry` command API: on a non-leader it returns `False`
without touching anything; on the leader it appends
`LogEntry(term=current_term, index=len(log), command=command)` — with
the timestamp defaulting to the current time — and returns `True`. -/
def appendEntry (s : RaftState) (now : Int) (command : String) :
    RaftState × Bool :=
  if s.role ≠ NodeState.leader then (s, false)
  else
    ({ s with
        log := s.log ++ [⟨s.currentTerm, (s.log.length : Int), command, now⟩] },
      true)

/-! ## Codec (src/message.py `MessageTranslator`) -/

/-- JSON values, the image of `json.dumps`/`json.loads`.  Numbers that
occur in the verified messages are integers (terms, indices, ports);
`json.dumps` followed by `json.loads` is the identity on these values
and is modelled as such. -/
inductive JValue where
  | jnull
  | jbool (b : Bool)
  | jint (n : Int)
  | jstr (s : String)
  | jarr (items : List JValue)
  | jobj (fields : List (String × JValue))

/-- Lookup of a key in a JSON object, Python `d[k]` presence test /
`d.get(k)`. -/
def jlookup (fields : List (String × JValue)) (k : String) : Option JValue :=
  match fields.find? (fun p => p.1 == k) with
  | some p => some p.2
  | none => none

/-- Peer identity `(host, port)`, `NodeMetadata` in src/node_metadata.py. -/
structure NodeMetadata where
  host : String
  port : Int
deriving DecidableEq, Repr

/-- A wire message `Message(msg_type, data, sender)` from src/message.py. -/
structure WireMessage where
  msgType : String
  data : JValue
  sender : NodeMetadata

/-- `MessageTranslator.message_to_json`: build the dict
`(msg_type, data, sender:(host, port))` and serialize it.  The
`json.dumps` call cannot fail on these values, so the Python
`Optional[str]` return is always the serialized object, modelled as the
JSON value itself. -/
def messageToJson (m : WireMessage) : JValue :=
  JValue.jobj
    [("msg_type", JValue.jstr m.msgType),
     ("data", m.data),
     ("sender", JValue.jobj
        [("host", JValue.jstr m.sender.host),
         ("port", JValue.jint m.sender.port)])]

/-- `MessageTranslator.json_to_message`: parse the JSON value back into
a `Message`, with the source's defaults — a missing `sender` defaults to
the empty dict, a missing `host` to `"unknown"`, a missing `port` to
`0`, a missing `msg_type` to `""`, a missing `data` to the empty dict.
The `none` branches model failures: a non-object top level or a
non-object `sender` makes the Python code call `.get` on a non-dict
(an uncaught `AttributeError`), and a non-string host / non-integer port
/ non-string msg_type would produce an ill-typed `Message`; none of
these can arise from `messageToJson` output. -/
def jsonToMessage (v : JValue) : Option WireMessage :=
  match v with
  | JValue.jobj fields =>
    match (jlookup fields "sender").getD (JValue.jobj []) with
    | JValue.jobj sf =>
      match (jlookup sf "host").getD (JValue.jstr "unknown"),
            (jlookup sf "port").getD (JValue.jint 0),
            (jlookup fields "msg_type").getD (JValue.jstr "") with
      | JValue.jstr h, JValue.jint p, JValue.jstr t =>
        some { msgType := t
               data := (jlookup fields "data").getD (JValue.jobj [])
               sender := ⟨h, p⟩ }
      | _, _, _ => none
    | _ => none
  | _ => none

/-- Serialization of a log entry into the dict carried by AppendEntries,
from `_send_append_entries` in src/node.py. -/
def serializeEntry (e : LogEntry) : JValue :=
  JValue.jobj
    [("term", JValue.jint e.term),
     ("index", JValue.jint e.index),
     ("command", JValue.jstr e.command),
     ("timestamp", JValue.jint e.timestamp)]

/-- `RaftNode._serialize_vote_request`. -/
def serializeVoteRequest (r : VoteRequest) : JValue :=
  JValue.jobj
    [("term", JValue.jint r.term),
     ("candidate_id", JValue.jstr r.candidateId),
     ("last_log_index", JValue.jint r.lastLogIndex),
     ("last_log_term", JValue.jint r.lastLogTerm)]

/-- `RaftNode._serialize_vote_response`. -/
def serializeVoteResponse (r : VoteResponse) : JValue :=
  JValue.jobj
    [("term", JValue.jint r.term),
     ("vote_granted", JValue.jbool r.voteGranted)]

/-- `RaftNode._serialize_append_request`, with the entries already in
their serialized dict form as in `_send_append_entries`. -/
def serializeAppendRequest (term : Int) (leaderId : String)
    (prevLogIndex prevLogTerm : Int) (entries : List LogEntry)
    (leaderCommit : Int) : JValue :=
  JValue.jobj
    [("term", JValue.jint term),
     ("leader_id", JValue.jstr leaderId),
     ("prev_log_index", JValue.jint prevLogIndex),
     ("prev_log_term", JValue.jint prevLogTerm),
     ("entries", JValue.jarr (entries.map serializeEntry)),
     ("leader_commit", JValue.jint leaderCommit)]

/-- `RaftNode._serialize_append_response`. -/
def serializeAppendResponse (r : AEResp) : JValue :=
  JValue.jobj
    [("term", JValue.jint r.term),
     ("success", JValue.jbool r.success),
     ("match_index", JValue.jint r.matchIndex)]

/-! ## Transport (src/network_comm.py `send_message_with_response`) -/

/-- Outcome of the network interaction inside
`send_message_with_response`: the dial or the reply read can time out,
the connection can be refused or reset, the reply can be malformed
(`_receive_message` returns `None`), or a reply message arrives. -/
inductive NetOutcome where
  | timeout
  | refused
  | reset
  | malformedReply
  | reply (m : WireMessage)

/-- `send_message_with_response`, with the actual socket I/O abstracted
into the `NetOutcome` of the exchange and `is_node_me(target_node)`
passed as `isSelf`.  The function raises `ValueError` — modelled as
`Except.error` — when the target is the node itself, before entering its
try block; inside the try block, `asyncio.TimeoutError` and every other
`Exception` are caught and `None` is returned, and a malformed reply is
already absorbed to `None` by `_receive_message`. -/
def sendMessageWithResponse (isSelf : Bool) (o : NetOutcome) :
    Except String (Option WireMessage) :=
  if isSelf then Except.error "Cannot send message to myself!"
  else
    match o with
    | NetOutcome.reply m => Except.ok (some m)
    | _ => Except.ok none

/-! ## Concrete scenario states and requests used in counterexamples and witnesses -/

/-- First request of the commit-regression run: a term-1 leader installs
ten entries and commits through index 9. -/
def c1req1 : AEReq :=
  { term := 1, leaderId := "127.0.0.1:7001", prevLogIndex := -1, prevLogTerm := 0,
    entries := (List.range 10).map (fun i => ⟨1, (i : Int), "cmd", some 0⟩),
    leaderCommit := 9 }

/-- State after `c1req1`: ten term-1 entries, `commit_index = 9`,
`last_applied = 9`. -/
def c1s1 : RaftState := (handleAppendEntries initialState 0 c1req1).st

/-- Second request: a term-2 leader whose first entry conflicts at index
0, truncating the whole log down to one entry while `commit_index`
stays 9. -/
def c1req2 : AEReq :=
  { term := 2, leaderId := "127.0.0.1:7002", prevLogIndex := -1, prevLogTerm := 0,
    entries := [⟨2, 0, "cmd", some 0⟩], leaderCommit := -1 }

/-- State after `c1req2`: one term-2 entry, `commit_index = 9`,
`last_applied = 9`. -/
def c1s2 : RaftState := (handleAppendEntries c1s1 0 c1req2).st

/-- Third request: an empty heartbeat with a large `leader_commit`; the
handler sets `commit_index = min(100, len(log) - 1) = 0`, a decrease
from 9. -/
def c1req3 : AEReq :=
  { term := 2, leaderId := "127.0.0.1:7002", prevLogIndex := 0, prevLogTerm := 2,
    entries := [], leaderCommit := 100 }

/-- State after `c1req3`: `commit_index = 0` while `last_applied = 9`. -/
def c1s3 : RaftState := (handleAppendEntries c1s2 0 c1req3).st

/-- A request with `prev_log_index = -3` and one entry: accepted by the
consistency check, but the append loop computes `log_index = -2` on an
empty log and `self.log[-2]` raises `IndexError`, so no reply is sent. -/
def c2failReq : AEReq :=
  { term := 0, leaderId := "127.0.0.1:7001", prevLogIndex := -3, prevLogTerm := 0,
    entries := [⟨0, 0, "cmd", some 0⟩], leaderCommit := -1 }

/-- An ordinary empty heartbeat, used to instantiate the receiver
specification. -/
def hbReq : AEReq :=
  { term := 1, leaderId := "127.0.0.1:7001", prevLogIndex := -1, prevLogTerm := 0,
    entries := [], leaderCommit := -1 }

/-- A node in the Leader role, used to instantiate the submit API
specification. -/
def leaderStateEx : RaftState :=
  { initialState with role := NodeState.leader, currentTerm := 3 }

/-- A follower at term 5, target of a stale vote request. -/
def voteStateEx : RaftState :=
  { initialState with currentTerm := 5, lastHeartbeatTime := 42 }

/-- A vote request one term behind `voteStateEx`. -/
def staleVoteReq : VoteRequest :=
  { term := 4, candidateId := "127.0.0.1:7002", lastLogIndex := -1, lastLogTerm := 0 }

/-- A term-1 leader of a three-node cluster with one entry replicated on
both followers, used to instantiate the commit-update specification. -/
def c4stateEx : RaftState :=
  { initialState with
      role := NodeState.leader
      currentTerm := 1
      log := [⟨1, 0, "cmd", 7⟩]
      matchIndex := [("127.0.0.1:7002", 0), ("127.0.0.1:7003", 0)] }

/-- The node ids of the three-node cluster around `c4stateEx`, this node
first. -/
def c4nodes : List String :=
  ["127.0.0.1:7001", "127.0.0.1:7002", "127.0.0.1:7003"]

/-- A two-entry log used to instantiate the apply-loop specification. -/
def c7log : List LogEntry :=
  [⟨1, 0, "SET a 1", 0⟩, ⟨1, 1, "SET b 2", 0⟩]

/-- A follower already holding one term-1 entry, target of a replayed
AppendEntries. -/
def c9state : RaftState :=
  { initialState with log := [⟨1, 0, "cmd", 0⟩], currentTerm := 1 }

/-- A replay of the request that installed the entry of `c9state`
(same term at the same index), which must leave the log unchanged. -/
def c9req : AEReq :=
  { term := 1, leaderId := "127.0.0.1:7001", prevLogIndex := -1, prevLogTerm := 0,
    entries := [⟨1, 0, "cmd", some 9⟩], leaderCommit := -1 }

/-! ## Theorems -/

/-- C1 counterexample: `commitIndex` is NOT monotonically non-decreasing
under the follower append-entries handler.  Starting from the initial
state, the reachable state `c1s2` has `commit_index = 9` with a log of
length 1, and the incoming request `c1req3` (an accepted heartbeat with
`leader_commit = 100`) drops `commit_index` to
`min(leader_commit, len(log) - 1) = 0`. -/
theorem commitIndex_decrease_counterexample :
    c1s2.commitIndex = 9 ∧
    (handleAppendEntries c1s2 0 c1req3).st.commitIndex = 0 := by
  constructor
  · decide
  · decide

/-- C2 counterexample: the append-entries receiver does not reply on
every request.  The request `c2failReq` (with `prev_log_index = -3` and
one entry) is accepted by the consistency check, but the append loop
evaluates `self.log[-2]` on the empty log, raising `IndexError`; the
handler's catch-all swallows it and no reply at all is produced, instead
of `success=true` with `match_index = prev_log_index + len(entries)`. -/
theorem append_entries_no_reply_counterexample :
    aeAccept (aeStep1 initialState 0 c2failReq).log c2failReq = true ∧
    (handleAppendEntries initialState 0 c2failReq).reply = none := by
  constructor
  · decide
  · decide

/-- C5 counterexample: `send_message_with_response` does raise to its
caller for one kind of target: when the target node is the node itself
(`is_node_me`), it raises `ValueError` before entering its try block,
whatever the network would have done. -/
theorem send_self_raises_counterexample :
    sendMessageWithResponse true NetOutcome.timeout =
      Except.error "Cannot send message to myself!" := rfl

/-- C5 amended: for every target other than the node itself,
`send_message_with_response` returns `None` on every failure — timeout,
connection refused, reset, malformed reply — never raising to its
caller, and returns the reply message on success. -/
theorem send_with_response_no_raise :
    sendMessageWithResponse false NetOutcome.timeout = Except.ok none ∧
    sendMessageWithResponse false NetOutcome.refused = Except.ok none ∧
    sendMessageWithResponse false NetOutcome.reset = Except.ok none ∧
    sendMessageWithResponse false NetOutcome.malformedReply = Except.ok none ∧
    ∀ m : WireMessage,
      sendMessageWithResponse false (NetOutcome.reply m) = Except.ok (some m) :=
  ⟨rfl, rfl, rfl, rfl, fun _ => rfl⟩

/-- C6: `append_entry` (submit) returns true iff the node's role is
Leader; on the leader it appends exactly the entry
`(currentTerm, len(log), command, now)` at the end of the log, and on a
non-leader it returns false. -/
theorem submit_leader_spec :
    ∀ (s : RaftState) (now : Int) (cmd : String),
      ((appendEntry s now cmd).2 = true ↔ s.role = NodeState.leader) ∧
      (s.role = NodeState.leader →
        (appendEntry s now cmd).1.log =
          s.log ++ [⟨s.currentTerm, (s.log.length : Int), cmd, now⟩]) ∧
      (s.role ≠ NodeState.leader → (appendEntry s now cmd).2 = false) := by
  intro s now cmd
  by_cases h : s.role = NodeState.leader <;> simp [appendEntry, h]

/-- C6 witness: the submit specification instantiated on a concrete
leader and a concrete follower. -/
theorem submit_leader_spec_witness :
    (appendEntry leaderStateEx 5 "SET x 1").2 = true ∧
    (appendEntry initialState 5 "SET x 1").2 = false :=
  ⟨(submit_leader_spec leaderStateEx 5 "SET x 1").1.mpr (by decide),
   (submit_leader_spec initialState 5 "SET x 1").2.2 (by decide)⟩

/-- C7 counterexample: `lastApplied ≤ commitIndex` is violated in the
reachable state `c1s3`: after the commit-index regression of the run
`c1req1, c1req2, c1req3`, the node has `last_applied = 9` but
`commit_index = 0`. -/
theorem lastApplied_le_commit_counterexample :
    c1s3.lastApplied = 9 ∧ c1s3.commitIndex = 0 ∧
    ¬ c1s3.lastApplied ≤ c1s3.commitIndex := by
  refine ⟨by decide, by decide, by decide⟩

/-- C8: the codec round-trips every message without loss —
`json_to_message (message_to_json m) = m` for every message, and in
particular for each of the four defined message kinds
(`vote_request`, `vote_response`, `append_entries`, `append_response`)
with their payload fields and `(host, port)` sender. -/
theorem codec_roundtrip :
    (∀ m : WireMessage, jsonToMessage (messageToJson m) = some m) ∧
    (∀ (r : VoteRequest) (snd : NodeMetadata),
      jsonToMessage (messageToJson ⟨"vote_request", serializeVoteRequest r, snd⟩) =
        some ⟨"vote_request", serializeVoteRequest r, snd⟩) ∧
    (∀ (r : VoteResponse) (snd : NodeMetadata),
      jsonToMessage (messageToJson ⟨"vote_response", serializeVoteResponse r, snd⟩) =
        some ⟨"vote_response", serializeVoteResponse r, snd⟩) ∧
    (∀ (term : Int) (leaderId : String) (prevLogIndex prevLogTerm : Int)
        (entries : List LogEntry) (leaderCommit : Int) (snd : NodeMetadata),
      jsonToMessage (messageToJson ⟨"append_entries",
          serializeAppendRequest term leaderId prevLogIndex prevLogTerm
            entries leaderCommit, snd⟩) =
        some ⟨"append_entries",
          serializeAppendRequest term leaderId prevLogIndex prevLogTerm
            entries leaderCommit, snd⟩) ∧
    (∀ (r : AEResp) (snd : NodeMetadata),
      jsonToMessage (messageToJson ⟨"append_response", serializeAppendResponse r, snd⟩) =
        some ⟨"append_response", serializeAppendResponse r, snd⟩) := by
  have hall : ∀ m : WireMessage, jsonToMessage (messageToJson m) = some m := by
    intro ⟨t, d, h, p⟩
    rfl
  exact ⟨hall, fun r snd => hall _, fun r snd => hall _,
    fun t l pi pt e lc snd => hall _, fun r snd => hall _⟩

/-- C10: calling `append_entry` (submit) on a node whose role is not
Leader returns false and leaves the entire node state — log, term, vote,
commit index, last applied, state machine — exactly unchanged. -/
theorem submit_non_leader_noop :
    ∀ (s : RaftState) (now : Int) (cmd : String),
      s.role ≠ NodeState.leader → appendEntry s now cmd = (s, false) := by
  intro s now cmd h
  simp [appendEntry, h]

/-- C10 witness: the non-leader no-op instantiated on the initial
(follower) state. -/
theorem submit_non_leader_noop_witness :
    appendEntry initialState 3 "SET a b" = (initialState, false) :=
  submit_non_leader_noop initialState 3 "SET a b" (by decide)

/-! ## Helper lemmas -/

/-- Python indexing with a nonnegative index is plain list lookup. -/
theorem pyGet?_nonneg {α : Type} (l : List α) (i : Int) (h : 0 ≤ i) :
    pyGet? l i = l.get? i.toNat := by
  simp [pyGet?, h]

/-- Python indexing with a nonnegative in-range index yields the element
at that position. -/
theorem pyGet?_some_of_lt {α : Type} (l : List α) (i : Int)
    (h0 : 0 ≤ i) (h1 : i < (l.length : Int)) :
    ∃ a, pyGet? l i = some a ∧
      ∀ (hn : i.toNat < l.length), l.get ⟨i.toNat, hn⟩ = a := by
  have hn : i.toNat < l.length := by omega
  refine ⟨l.get ⟨i.toNat, hn⟩, ?_, fun _ => rfl⟩
  rw [pyGet?_nonneg l i h0]
  exact List.get?_eq_get hn

/-- The append loop never raises when started at a nonnegative index:
every index it touches is nonnegative, so the in-range accesses never
wrap. -/
theorem appendLoop_no_error (entries : List ReqEntry) :
    ∀ (log : List LogEntry) (start now : Int), 0 ≤ start →
      ∃ newLog, appendLoopAux now log start entries = Except.ok newLog := by
  induction entries with
  | nil => intro log start now _; exact ⟨log, rfl⟩
  | cons e rest ih =>
    intro log start now h
    simp only [appendLoopAux]
    split
    · rename_i hlt
      split
      · rename_i hnone
        obtain ⟨a, ha, -⟩ := pyGet?_some_of_lt log start h hlt
        rw [ha] at hnone
        exact absurd hnone (by simp)
      · split
        · exact ih _ _ now (by omega)
        · exact ih _ _ now (by omega)
    · exact ih _ _ now (by omega)

/-- The append loop is a no-op on a log that already holds an entry with
the matching term at every index the request covers. -/
theorem appendLoop_noop (entries : List ReqEntry) :
    ∀ (log : List LogEntry) (start now : Int), 0 ≤ start →
      (∀ k (hk : k < entries.length),
        start + (k : Int) < (log.length : Int) ∧
        (pyGet? log (start + (k : Int))).map LogEntry.term =
          some (entries.get ⟨k, hk⟩).term) →
      appendLoopAux now log start entries = Except.ok log := by
  induction entries with
  | nil => intro log start now _ _; rfl
  | cons e rest ih =>
    intro log start now h hall
    have h0 := hall 0 (Nat.succ_pos _)
    have hz : start + ((0 : Nat) : Int) = start := by omega
    rw [hz] at h0
    obtain ⟨hlt, hterm⟩ := h0
    obtain ⟨cur, hcur, -⟩ := pyGet?_some_of_lt log start h hlt
    rw [hcur] at hterm
    have hterm2 : cur.term = e.term := by simpa using hterm
    simp only [appendLoopAux, hcur]
    rw [if_pos hlt, if_neg (by simp [hterm2])]
    apply ih _ _ now (by omega)
    intro k hk
    have hk1 := hall (k + 1) (Nat.succ_lt_succ hk)
    have harith : start + ((k + 1 : Nat) : Int) = start + 1 + (k : Int) := by omega
    rw [harith] at hk1
    exact ⟨hk1.1, by simpa using hk1.2⟩

/-- The apply loop never raises when `last_applied ≥ -1` on entry. -/
theorem applyEntries_no_error (fuel : Nat) :
    ∀ (log : List LogEntry) (commit la : Int) (sm : List (String × String)),
      -1 ≤ la →
      ∃ r, applyEntriesAux log commit la sm fuel = Except.ok r := by
  induction fuel with
  | zero => intro log commit la sm _; exact ⟨(la, sm, []), rfl⟩
  | succ f ih =>
    intro log commit la sm hla
    simp only [applyEntriesAux]
    split
    · split
      · rename_i hlen
        obtain ⟨a, ha, -⟩ := pyGet?_some_of_lt log (la + 1) (by omega) hlen
        obtain ⟨⟨laf, smf, tr⟩, hr⟩ := ih log commit (la + 1) (applyEntry sm a) (by omega)
        exact ⟨(laf, smf, a :: tr), by simp only [ha, hr]⟩
      · obtain ⟨r, hr⟩ := ih log commit (la + 1) sm (by omega)
        exact ⟨r, by simp only [hr]⟩
    · exact ⟨(la, sm, []), rfl⟩

/-- Exact description of the apply loop when the committed range lies
inside the log: it ends at `last_applied = commit_index` and applies
precisely the entries of the slice `log[la+1 .. commit]`, in order. -/
theorem applyEntriesAux_spec (fuel : Nat) :
    ∀ (log : List LogEntry) (commit la : Int) (sm : List (String × String)),
      -1 ≤ la → la ≤ commit → commit < (log.length : Int) →
      fuel = (commit - la).toNat →
      applyEntriesAux log commit la sm fuel =
        Except.ok (commit,
          ((log.drop (la + 1).toNat).take (commit - la).toNat).foldl applyEntry sm,
          (log.drop (la + 1).toNat).take (commit - la).toNat) := by
  induction fuel with
  | zero =>
    intro log commit la sm h1 h2 h3 hf
    have hcl : commit = la := by omega
    subst hcl
    have ht : (commit - commit).toNat = 0 := by omega
    simp [applyEntriesAux, ht]
  | succ f ih =>
    intro log commit la sm h1 h2 h3 hf
    have hlt : la < commit := by omega
    have hlen : la + 1 < (log.length : Int) := by omega
    obtain ⟨a, ha, hget⟩ := pyGet?_some_of_lt log (la + 1) (by omega) hlen
    have hn : (la + 1).toNat < log.length := by omega
    have hgetElem : log[(la + 1).toNat] = a := by
      have hg := hget hn
      simpa [List.get_eq_getElem] using hg
    have hS : (log.drop (la + 1).toNat).take (commit - la).toNat =
        a :: (log.drop (la + 1 + 1).toNat).take (commit - (la + 1)).toNat := by
      rw [List.drop_eq_getElem_cons hn,
        show (commit - la).toNat = (commit - (la + 1)).toNat + 1 from by omega,
        List.take_succ_cons, hgetElem,
        show (la + 1).toNat + 1 = (la + 1 + 1).toNat from by omega]
    simp only [applyEntriesAux]
    rw [if_pos hlt, if_pos hlen]
    simp only [ha,
      ih log commit (la + 1) (applyEntry sm a) (by omega) (by omega) h3 (by omega)]
    rw [hS, List.foldl_cons]

/-- The head of the append-entries handler changes neither the log nor
the commit index, last-applied counter, or state machine. -/
theorem aeStep1_fields (s : RaftState) (now : Int) (req : AEReq) :
    (aeStep1 s now req).log = s.log ∧
    (aeStep1 s now req).commitIndex = s.commitIndex ∧
    (aeStep1 s now req).lastApplied = s.lastApplied ∧
    (aeStep1 s now req).stateMachine = s.stateMachine := by
  simp only [aeStep1]
  split <;> split <;> exact ⟨rfl, rfl, rfl, rfl⟩

/-- The append-entries handler either leaves the commit index unchanged,
or — when `leader_commit` exceeds it — sets it to
`min(leader_commit, len(log) - 1)` over the post-append log. -/
theorem handleAppendEntries_commit_cases (s : RaftState) (now : Int) (req : AEReq) :
    (handleAppendEntries s now req).st.commitIndex = s.commitIndex ∨
    (req.leaderCommit > s.commitIndex ∧
      (handleAppendEntries s now req).st.commitIndex =
        min req.leaderCommit
          (((handleAppendEntries s now req).st.log.length : Int) - 1)) := by
  obtain ⟨hlog, hci, hla, hsm⟩ := aeStep1_fields s now req
  simp only [handleAppendEntries]
  split
  · split
    · left
      simpa using hci
    · rename_i newLog heq
      split
      · rename_i hgt
        right
        refine ⟨by simpa [hci] using hgt, ?_⟩
        split <;> simp
      · left
        simpa using hci
  · left
    simpa using hci

/-- The consistency check of the receiver, spelled out. -/
theorem aeAccept_iff (log : List LogEntry) (req : AEReq) :
    aeAccept log req = true ↔
      (req.prevLogIndex < 0 ∨ (req.prevLogIndex < (log.length : Int) ∧
        ∃ e, pyGet? log req.prevLogIndex = some e ∧ e.term = req.prevLogTerm)) := by
  cases hpg : pyGet? log req.prevLogIndex with
  | none => simp [aeAccept, hpg]
  | some e => simp [aeAccept, hpg]

/-- Sorting descending yields a `(· ≥ ·)`-sorted list. -/
theorem sortDesc_sorted (l : List Int) : (sortDesc l).Sorted (· ≥ ·) :=
  List.sorted_insertionSort _ l

/-- Sorting descending permutes the input. -/
theorem sortDesc_perm (l : List Int) : (sortDesc l).Perm l :=
  List.perm_insertionSort _ l

/-- In a descending-sorted list, values decrease along positions. -/
theorem sorted_ge_get_mono (s : List Int) (hsor : s.Sorted (· ≥ ·))
    (i k : Nat) (hik : i ≤ k) (hk : k < s.length) (hi : i < s.length) :
    s.get ⟨k, hk⟩ ≤ s.get ⟨i, hi⟩ := by
  rcases Nat.lt_or_ge i k with h | h
  · exact hsor.rel_get_of_lt (Fin.mk_lt_mk.mpr h)
  · have hik2 : i = k := by omega
    subst hik2
    exact le_refl _

/-- The element at position `k` of the descending sort of `l` is a value
reached or exceeded by at least `k + 1` elements of `l`, and any larger
value is reached by at most `k` elements — for `k = len // 2` this is
exactly "the largest value attained by a majority". -/
theorem sortDesc_median_counts (l : List Int) (k : Nat) (m : Int)
    (hm : (sortDesc l).get? k = some m) :
    k + 1 ≤ l.countP (fun v => decide (m ≤ v)) ∧
    ∀ v : Int, m < v → l.countP (fun w => decide (v ≤ w)) ≤ k := by
  have hsor : (sortDesc l).Sorted (· ≥ ·) := sortDesc_sorted l
  have hperm : (sortDesc l).Perm l := sortDesc_perm l
  obtain ⟨hk, hget⟩ := List.get?_eq_some.mp hm
  constructor
  · rw [← hperm.countP_eq]
    have hall : ∀ a ∈ (sortDesc l).take (k + 1), (fun v => decide (m ≤ v)) a = true := by
      intro a ha
      obtain ⟨i, hi, hia⟩ := List.mem_iff_getElem.mp ha
      have hi2 : i < k + 1 := by
        have hl := hi
        rw [List.length_take] at hl
        omega
      have hilen : i < (sortDesc l).length := by omega
      have hsa : (sortDesc l).get ⟨i, hilen⟩ = a := by
        have hg := List.getElem_take (sortDesc l) (j := k + 1) (i := i) (h := hi)
        rw [hia] at hg
        simpa [List.get_eq_getElem] using hg.symm
      have hmono := sorted_ge_get_mono (sortDesc l) hsor i k (by omega) hk hilen
      rw [hget, hsa] at hmono
      simpa using hmono
    have hcnt : ((sortDesc l).take (k + 1)).countP (fun v => decide (m ≤ v)) = k + 1 := by
      rw [List.countP_eq_length.mpr hall, List.length_take]
      omega
    calc k + 1 = ((sortDesc l).take (k + 1)).countP (fun v => decide (m ≤ v)) := hcnt.symm
      _ ≤ ((sortDesc l).take (k + 1)).countP (fun v => decide (m ≤ v)) +
            ((sortDesc l).drop (k + 1)).countP (fun v => decide (m ≤ v)) :=
          Nat.le_add_right _ _
      _ = (sortDesc l).countP (fun v => decide (m ≤ v)) := by
            rw [← List.countP_append, List.take_append_drop]
  · intro v hv
    rw [← hperm.countP_eq]
    have hdrop : ((sortDesc l).drop k).countP (fun w => decide (v ≤ w)) = 0 := by
      rw [List.countP_eq_zero]
      intro a ha
      obtain ⟨j, hj, hja⟩ := List.mem_iff_getElem.mp ha
      have hjlen : k + j < (sortDesc l).length := by
        have hl := hj
        rw [List.length_drop] at hl
        omega
      have hsa : (sortDesc l).get ⟨k + j, hjlen⟩ = a := by
        have hg := List.getElem_drop (sortDesc l) (i := k) (j := j) (h := hj)
        rw [hja] at hg
        simpa [List.get_eq_getElem] using hg.symm
      have hmono := sorted_ge_get_mono (sortDesc l) hsor k (k + j) (by omega) hjlen hk
      rw [hget, hsa] at hmono
      simp only [decide_eq_true_eq]
      omega
    have htake : ((sortDesc l).take k).countP (fun w => decide (v ≤ w)) ≤ k :=
      le_trans (List.countP_le_length _) (by rw [List.length_take]; omega)
    calc (sortDesc l).countP (fun w => decide (v ≤ w))
        = ((sortDesc l).take k).countP (fun w => decide (v ≤ w)) +
          ((sortDesc l).drop k).countP (fun w => decide (v ≤ w)) := by
            rw [← List.countP_append, List.take_append_drop]
      _ ≤ k := by omega

/-- C1 amended: `commitIndex` never decreases under the leader's
recomputation (`_update_commit_index`), and never decreases under the
follower append-entries handler provided it stays below the length of
the log left by the append phase; the counterexample shows the remaining
case — a request whose `leader_commit` exceeds a `commitIndex` that the
post-append log no longer reaches — can decrease it. -/
theorem commitIndex_monotone_amended :
    (∀ (allNodes : List String) (s : RaftState),
      s.commitIndex ≤ (updateCommitIndex allNodes s).commitIndex) ∧
    (∀ (s : RaftState) (now : Int) (req : AEReq),
      s.commitIndex < ((handleAppendEntries s now req).st.log.length : Int) →
      s.commitIndex ≤ (handleAppendEntries s now req).st.commitIndex) := by
  constructor
  · intro allNodes s
    simp only [updateCommitIndex]
    split
    · split
      · exact le_refl _
      · split
        · split
          · split
            · dsimp only
              omega
            · exact le_refl _
          · exact le_refl _
        · exact le_refl _
    · exact le_refl _
  · intro s now req h
    rcases handleAppendEntries_commit_cases s now req with hc | ⟨hgt, hc⟩
    · rw [hc]
    · rw [hc]
      omega

/-- C1 witness: the handler part of the monotonicity theorem
instantiated on the initial state receiving `c1req1`. -/
theorem commitIndex_monotone_amended_witness :
    initialState.commitIndex <
      ((handleAppendEntries initialState 0 c1req1).st.log.length : Int) ∧
    initialState.commitIndex ≤
      (handleAppendEntries initialState 0 c1req1).st.commitIndex :=
  ⟨by decide, commitIndex_monotone_amended.2 initialState 0 c1req1 (by decide)⟩

/-- C2 amended: for every request with `prev_log_index ≥ -1` (and a
state with `last_applied ≥ -1`, true of every reachable state), the
receiver always replies: it accepts iff `prev_log_index < 0` or the
entry at `prev_log_index` has term `prev_log_term`; the reply carries
the receiver's (possibly updated) current term; on accept
`match_index = prev_log_index + len(entries)` with `success=true`; on
reject `success=false` and `match_index = -1`.  The counterexample shows
the claim fails for `prev_log_index ≤ -2` with a non-empty entry list,
where the handler can raise and send nothing. -/
theorem append_entries_receiver_spec :
    ∀ (s : RaftState) (now : Int) (req : AEReq),
      -1 ≤ req.prevLogIndex → -1 ≤ s.lastApplied →
      ∃ r, (handleAppendEntries s now req).reply = some r ∧
        (r.success = true ↔ aeAccept s.log req = true) ∧
        (aeAccept s.log req = true ↔
          (req.prevLogIndex < 0 ∨ (req.prevLogIndex < (s.log.length : Int) ∧
            ∃ e, pyGet? s.log req.prevLogIndex = some e ∧
              e.term = req.prevLogTerm))) ∧
        r.term = (handleAppendEntries s now req).st.currentTerm ∧
        (r.success = true →
          r.matchIndex = req.prevLogIndex + (req.entries.length : Int)) ∧
        (r.success = false → r.matchIndex = -1) := by
  intro s now req hprev hla
  obtain ⟨hlog, hci, hla2, hsm⟩ := aeStep1_fields s now req
  have hiff := aeAccept_iff s.log req
  by_cases hacc : aeAccept s.log req = true
  · obtain ⟨newLog, hnl⟩ :=
      appendLoop_no_error req.entries s.log (req.prevLogIndex + 1) now (by omega)
    by_cases hgt : req.leaderCommit > s.commitIndex
    · obtain ⟨⟨laf, smf, tr⟩, hap⟩ :=
        applyEntries_no_error
          ((min req.leaderCommit ((newLog.length : Int) - 1) - s.lastApplied).toNat)
          newLog (min req.leaderCommit ((newLog.length : Int) - 1)) s.lastApplied
          s.stateMachine hla
      simp only [handleAppendEntries, hlog, hci, hla2, hsm, hacc, if_pos,
        appendLoopFn, hnl, hgt, applyEntriesFn, hap]
      refine ⟨_, rfl, by simp [hacc], by simpa [hacc] using hiff, by simp, ?_, by simp⟩
      intro _
      show (req.prevLogIndex + 1) + (req.entries.length : Int) - 1 =
        req.prevLogIndex + (req.entries.length : Int)
      omega
    · simp only [handleAppendEntries, hlog, hci, hla2, hsm, hacc, if_pos,
        appendLoopFn, hnl, hgt, if_neg]
      refine ⟨_, rfl, by simp [hacc], by simpa [hacc] using hiff, by simp, ?_, by simp⟩
      intro _
      show (req.prevLogIndex + 1) + (req.entries.length : Int) - 1 =
        req.prevLogIndex + (req.entries.length : Int)
      omega
  · simp only [handleAppendEntries, hlog, hacc, if_neg]
    refine ⟨_, rfl, by simp [hacc],
      iff_of_false (by simp) (fun hc => hacc (hiff.mpr hc)), rfl, by simp, by simp⟩

/-- C2 witness: the receiver specification instantiated on the initial
state receiving an ordinary heartbeat. -/
theorem append_entries_receiver_spec_witness :
    ∃ r, (handleAppendEntries initialState 0 hbReq).reply = some r ∧
      (r.success = true ↔ aeAccept initialState.log hbReq = true) ∧
      (aeAccept initialState.log hbReq = true ↔
        (hbReq.prevLogIndex < 0 ∨
          (hbReq.prevLogIndex < (initialState.log.length : Int) ∧
            ∃ e, pyGet? initialState.log hbReq.prevLogIndex = some e ∧
              e.term = hbReq.prevLogTerm))) ∧
      r.term = (handleAppendEntries initialState 0 hbReq).st.currentTerm ∧
      (r.success = true →
        r.matchIndex = hbReq.prevLogIndex + (hbReq.entries.length : Int)) ∧
      (r.success = false → r.matchIndex = -1) :=
  append_entries_receiver_spec initialState 0 hbReq (by decide) (by decide)

/-- C3: the vote-request handler grants a vote iff — after adopting a
strictly higher request term — the request's term is at least the
current term, `votedFor` is free or already this candidate, and the
candidate's log is at least as up-to-date; on grant it records the vote
and resets the election timer; and a request one term behind is answered
`granted=false` with the receiver's current term, without any timer
reset. -/
theorem vote_request_handler_spec :
    ∀ (s : RaftState) (now : Int) (req : VoteRequest),
      ((handleVoteRequest s now req).2.voteGranted = true ↔
        (req.term ≥ (voteStep1 s req).currentTerm ∧
          ((voteStep1 s req).votedFor = none ∨
            (voteStep1 s req).votedFor = some req.candidateId) ∧
          upToDate (voteStep1 s req).log req = true)) ∧
      ((handleVoteRequest s now req).2.voteGranted = true →
        (handleVoteRequest s now req).1.votedFor = some req.candidateId ∧
        (handleVoteRequest s now req).1.lastHeartbeatTime = now) ∧
      (req.term = s.currentTerm - 1 →
        (handleVoteRequest s now req).2.voteGranted = false ∧
        (handleVoteRequest s now req).2.term = s.currentTerm ∧
        (handleVoteRequest s now req).1.lastHeartbeatTime = s.lastHeartbeatTime) := by
  intro s now req
  have hstale : req.term = s.currentTerm - 1 → voteStep1 s req = s := by
    intro h
    unfold voteStep1
    rw [if_neg (by omega)]
  unfold handleVoteRequest
  by_cases hcv : req.term ≥ (voteStep1 s req).currentTerm ∧
      ((voteStep1 s req).votedFor = none ∨
        (voteStep1 s req).votedFor = some req.candidateId)
  · rw [if_pos hcv]
    by_cases hud : upToDate (voteStep1 s req).log req = true
    · rw [if_pos hud]
      refine ⟨by simp [hcv, hud], fun _ => ⟨rfl, rfl⟩, ?_⟩
      intro h
      exfalso
      have h1 := hstale h
      rw [h1] at hcv
      omega
    · rw [if_neg hud]
      refine ⟨iff_of_false (by simp) (fun hc => hud hc.2.2), by simp, ?_⟩
      intro h
      have h1 := hstale h
      rw [h1]
      refine ⟨rfl, rfl, rfl⟩
  · rw [if_neg hcv]
    refine ⟨iff_of_false (by simp) (fun hc => hcv ⟨hc.1, hc.2.1⟩), by simp, ?_⟩
    intro h
    have h1 := hstale h
    rw [h1]
    refine ⟨rfl, rfl, rfl⟩

/-- C3 witness: the stale-candidate part instantiated on a term-5
follower receiving a term-4 vote request. -/
theorem vote_request_handler_spec_witness :
    (handleVoteRequest voteStateEx 99 staleVoteReq).2.voteGranted = false ∧
    (handleVoteRequest voteStateEx 99 staleVoteReq).2.term = voteStateEx.currentTerm ∧
    (handleVoteRequest voteStateEx 99 staleVoteReq).1.lastHeartbeatTime =
      voteStateEx.lastHeartbeatTime :=
  (vote_request_handler_spec voteStateEx 99 staleVoteReq).2.2 (by decide)

/-- C4: on a leader, `_update_commit_index` picks the element at
position `len // 2` of the descending sort of the collected matchIndex
values — provably the largest index replicated on at least a majority of
the matchIndex entries — and whenever it changes `commitIndex` it sets
it to exactly that value, strictly above the old one, and only when the
log entry at that index carries the current term; conversely, when the
median exceeds the commit index, lies inside the log, and the entry
there has the current term, the commit index does advance to it. -/
theorem leader_commit_update_spec :
    ∀ (allNodes : List String) (s : RaftState) (m : Int),
      s.role = NodeState.leader →
      (sortDesc (matchValues allNodes s)).get? ((matchValues allNodes s).length / 2) =
        some m →
      (((updateCommitIndex allNodes s).commitIndex ≠ s.commitIndex →
         (updateCommitIndex allNodes s).commitIndex = m ∧ m > s.commitIndex ∧
         ∃ e, pyGet? s.log m = some e ∧ e.term = s.currentTerm) ∧
       ((m > s.commitIndex ∧ m < (s.log.length : Int)) →
         ∀ e, pyGet? s.log m = some e → e.term = s.currentTerm →
           (updateCommitIndex allNodes s).commitIndex = m) ∧
       (allNodes.length / 2 + 1 ≤
         (matchValues allNodes s).countP (fun v => decide (m ≤ v))) ∧
       (∀ v : Int, m < v →
         (matchValues allNodes s).countP (fun w => decide (v ≤ w)) ≤
           allNodes.length / 2)) := by
  intro allNodes s m hrole hm
  have hcounts :=
    sortDesc_median_counts (matchValues allNodes s)
      ((matchValues allNodes s).length / 2) m hm
  have hlenmap : (matchValues allNodes s).length = allNodes.length :=
    List.length_map _ _
  have hm2 : (sortDesc (matchValues allNodes s))[(matchValues allNodes s).length / 2]? =
      some m := by
    rw [← List.get?_eq_getElem?]
    exact hm
  refine ⟨?_, ?_, ?_, ?_⟩
  · intro hne
    by_cases hcond : m > s.commitIndex ∧ m < (s.log.length : Int)
    · cases hpg : pyGet? s.log m with
      | none =>
        exact absurd (by simp [updateCommitIndex, hrole, hm2, hcond, hpg]) hne
      | some e =>
        by_cases hterm : e.term = s.currentTerm
        · refine ⟨?_, hcond.1, e, rfl, hterm⟩
          simp [updateCommitIndex, hrole, hm2, hcond, hpg, hterm]
        · exact absurd (by simp [updateCommitIndex, hrole, hm2, hcond, hpg, hterm]) hne
    · exact absurd (by simp [updateCommitIndex, hrole, hm2, hcond]) hne
  · intro hcond e hpg hterm
    simp [updateCommitIndex, hrole, hm2, hcond, hpg, hterm]
  · rw [hlenmap] at hcounts
    exact hcounts.1
  · intro v hv
    rw [hlenmap] at hcounts
    exact hcounts.2 v hv

/-- C4 witness: the commit-update specification instantiated on a
three-node leader whose entry 0 is replicated on both followers, where
the commit index advances to 0. -/
theorem leader_commit_update_spec_witness :
    (updateCommitIndex c4nodes c4stateEx).commitIndex = 0 := by
  have h := leader_commit_update_spec c4nodes c4stateEx 0 (by decide) (by decide)
  exact h.2.1 (by decide) ⟨1, 0, "cmd", 7⟩ (by decide) (by decide)

/-- C7 amended: when `lastApplied ≤ commitIndex < len(log)` on entry —
always true of states not hit by the commit-index regression of C1 —
the apply loop terminates with `lastApplied = commitIndex`, having
applied exactly the entries at indices `lastApplied+1 .. commitIndex`,
in strictly increasing index order with no gaps, advancing `lastApplied`
by exactly one per applied entry; the counterexample shows the invariant
`lastApplied ≤ commitIndex` itself fails on a reachable state. -/
theorem apply_loop_spec :
    ∀ (log : List LogEntry) (commit : Int) (sm : List (String × String)) (la : Int),
      -1 ≤ la → la ≤ commit → commit < (log.length : Int) →
      ∃ tr, applyEntriesFn log commit sm la =
          Except.ok (commit, tr.foldl applyEntry sm, tr) ∧
        tr = (log.drop (la + 1).toNat).take (commit - la).toNat := by
  intro log commit sm la h1 h2 h3
  exact ⟨_, applyEntriesAux_spec (commit - la).toNat log commit la sm h1 h2 h3 rfl, rfl⟩

/-- C7 witness: the apply-loop specification instantiated on a fresh
two-entry log with commit index 1. -/
theorem apply_loop_spec_witness :
    ∃ tr, applyEntriesFn c7log 1 [] (-1) =
        Except.ok (1, tr.foldl applyEntry [], tr) ∧
      tr = (c7log.drop ((-1 : Int) + 1).toNat).take ((1 : Int) - (-1 : Int)).toNat :=
  apply_loop_spec c7log 1 [] (-1) (by decide) (by decide) (by decide)

/-- C9: replaying an AppendEntries request against a log that already
holds an entry with the matching term at every index the request covers
leaves the follower's log unchanged (the append phase is idempotent). -/
theorem append_entries_idempotent :
    ∀ (s : RaftState) (now : Int) (req : AEReq),
      -1 ≤ req.prevLogIndex →
      (∀ k (hk : k < req.entries.length),
        req.prevLogIndex + 1 + (k : Int) < (s.log.length : Int) ∧
        (pyGet? s.log (req.prevLogIndex + 1 + (k : Int))).map LogEntry.term =
          some (req.entries.get ⟨k, hk⟩).term) →
      (handleAppendEntries s now req).st.log = s.log := by
  intro s now req hprev hall
  obtain ⟨hlog, hci, hla2, hsm⟩ := aeStep1_fields s now req
  by_cases hacc : aeAccept s.log req = true
  · have hnl : appendLoopAux now s.log (req.prevLogIndex + 1) req.entries =
        Except.ok s.log := by
      apply appendLoop_noop req.entries s.log (req.prevLogIndex + 1) now (by omega)
      intro k hk
      exact hall k hk
    simp only [handleAppendEntries, hlog, hci, hla2, hsm, hacc, if_pos,
      appendLoopFn, hnl]
    by_cases hgt : req.leaderCommit > s.commitIndex
    · simp only [hgt, if_pos]
      split <;> simp
    · simp [hgt]
  · simp [handleAppendEntries, hlog, hacc]

/-- C9 witness: replaying against `c9state` the request that installed
its single entry leaves the log unchanged. -/
theorem append_entries_idempotent_witness :
    (handleAppendEntries c9state 0 c9req).st.log = c9state.log :=
  append_entries_idempotent c9state 0 c9req (by decide) (by decide)
